import Mathlib

/-!
Shallow embedding of `src/proxy.go` (influxdb-collectd-proxy): the sample
processor `processPacket`, its per-series normalization cache, and the
batching loop of `main`.

Modelling conventions:
* Go `float64` is modelled by the inductive `F`: a finite value is an exact
  rational, plus NaN and the two infinities.  On the small integral inputs
  used in the concrete theorems below, IEEE double arithmetic is exact, so
  the rational model computes exactly what the Go program computes.
* Go `int64` timestamps are modelled by `ℤ`; Go integer division truncates
  toward zero, which is `Int.tdiv` in Lean (not `/`, which is Euclidean).
* The Go map `beforeCache map[string]CacheEntry` is modelled extensionally
  as `String → Option CacheEntry`.
* A Go runtime panic (the unguarded index `t[i]` at proxy.go line 168) is
  modelled by returning `none` from the processing function.
-/

namespace CollectdProxy

/-- Model of Go `float64`: exact rationals for finite doubles, plus NaN and
the infinities.  Only the operations `proxy.go` uses are defined. -/
inductive F where
  | finite (q : ℚ)
  | nan
  | posInf
  | negInf
deriving DecidableEq, Repr

/-- `math.IsNaN`. -/
def F.isNaN : F → Bool
  | .nan => true
  | _ => false

/-- IEEE subtraction `a - b`, restricted to the cases reachable here. -/
def F.sub : F → F → F
  | .finite a, .finite b => .finite (a - b)
  | .nan, _ => .nan
  | _, .nan => .nan
  | .posInf, .posInf => .nan
  | .negInf, .negInf => .nan
  | .posInf, _ => .posInf
  | .negInf, _ => .negInf
  | .finite _, .posInf => .negInf
  | .finite _, .negInf => .posInf

/-- IEEE division of a double by `float64(d)` where `d : ℤ` (the conversion
is exact for the magnitudes reachable here).  A nonzero finite numerator
divided by zero gives a signed infinity; `0/0` gives NaN. -/
def F.divByInt : F → ℤ → F
  | .nan, _ => .nan
  | .finite a, d =>
      if d = 0 then (if a = 0 then .nan else if 0 < a then .posInf else .negInf)
      else .finite (a / (d : ℚ))
  | .posInf, d => if 0 ≤ d then .posInf else .negInf
  | .negInf, d => if 0 ≤ d then .negInf else .posInf

/-- collectd data-source kinds (`collectd.TypeGauge` etc. in gocollectd). -/
inductive DataType where
  | gauge
  | counter
  | derive
  | absolute
deriving DecidableEq, Repr

/-- proxy.go lines 39-42: point cache entry for COUNTER and DERIVE types. -/
structure CacheEntry where
  Timestamp : ℤ
  Value : F
deriving DecidableEq, Repr

/-- The Go map `beforeCache map[string]CacheEntry`, modelled extensionally. -/
def Cache : Type := String → Option CacheEntry

/-- Modelled from the spec: the Type Catalog `Types` produced by
`ParseTypesDB` (its file, types.go, is not under src/) is a
`mapping<typeName, orderedList<dataSourceName>>`; a Go map lookup of an
absent key yields nil, here `none`. -/
def Types : Type := String → Option (List String)

/-- One decoded collectd sample (`collectd.Packet`), with the fields
`processPacket` reads.  `values` pairs each value with its data type
(`packet.ValueNumbers()[i].Float64()` and `packet.DataTypes[i]`);
`timeNs` is `packet.Time().UnixNano()`. -/
structure Packet where
  Hostname : String
  Plugin : String
  PluginInstance : String
  «Type» : String
  TypeInstance : String
  values : List (F × DataType)
  timeNs : ℤ
deriving DecidableEq, Repr

/-- One `influxdb.Series` as `processPacket` builds it: a name, the fixed
column list, and a single row `(time, value, host)`. -/
structure Series where
  Name : String
  Columns : List String
  Points : List (ℤ × F × String)
deriving DecidableEq, Repr

/-- proxy.go line 155: `strings.Replace(packet.Hostname, ".", "_", -1)`.
For the one-ASCII-character pattern "." a replace-all is exactly the
per-character map. -/
def hostNameOf (packet : Packet) : String :=
  String.mk (packet.Hostname.data.map fun c => if c = '.' then '_' else c)

/-- proxy.go lines 158-161: plugin name, with `-PluginInstance` appended
when the instance is nonempty. -/
def pluginNameOf (packet : Packet) : String :=
  if packet.PluginInstance ≠ "" then packet.Plugin ++ "-" ++ packet.PluginInstance
  else packet.Plugin

/-- proxy.go lines 164-169: type name with its instance label.  `none`
models the Go runtime panic when `t[i]` is indexed out of range. -/
def typeNameOf (types : Types) (packet : Packet) (i : ℕ) : Option String :=
  if packet.TypeInstance ≠ "" then some (packet.«Type» ++ "-" ++ packet.TypeInstance)
  else
    match types packet.«Type» with
    | some t => (t.get? i).map fun s => packet.«Type» ++ "-" ++ s
    | none => some packet.«Type»

/-- proxy.go line 171: `cacheKey := hostName + "." + pluginName + "." + typeName`. -/
def cacheKeyOf (packet : Packet) (typeName : String) : String :=
  hostNameOf packet ++ "." ++ pluginNameOf packet ++ "." ++ typeName

/-- proxy.go line 172: `name := pluginName + "." + typeName`. -/
def seriesNameOf (packet : Packet) (typeName : String) : String :=
  pluginNameOf packet ++ "." ++ typeName

/-- proxy.go line 175: `timestamp := packet.Time().UnixNano() / 1000000`
(Go integer division truncates toward zero, hence `Int.tdiv`). -/
def timestampOf (packet : Packet) : ℤ :=
  Int.tdiv packet.timeNs 1000000

/-- Go map insert `beforeCache[cacheKey] = entry`. -/
def cacheInsert (cache : Cache) (key : String) (e : CacheEntry) : Cache :=
  fun k => if k = key then some e else cache k

/-- proxy.go line 181 guard, parenthesized the way Go parses
`*normalize && dataType == collectd.TypeCounter || dataType == collectd.TypeDerive`:
`&&` binds tighter than `||`, so this is
`(normalize && dataType == TypeCounter) || (dataType == TypeDerive)`. -/
def normPathCond (normalize : Bool) (dataType : DataType) : Bool :=
  (normalize && (dataType == DataType.counter)) || (dataType == DataType.derive)

/-- proxy.go lines 178-198: the normalization block.  Returns
`(readyToSend, normalizedValue, beforeCache after the block)`. -/
def normalizeStep (normalize : Bool) (cache : Cache) (cacheKey : String)
    (timestamp : ℤ) (value : F) (dataType : DataType) : Bool × F × Cache :=
  if normPathCond normalize dataType then
    match cache cacheKey with
    | some before =>
        if before.Value.isNaN then
          -- skip current data if there's no initial entry
          (false, value, cacheInsert cache cacheKey ⟨timestamp, value⟩)
        else
          -- normalize over time
          let normalizedValue :=
            if timestamp - before.Timestamp > 0 then
              -- (value - before.Value) / float64((timestamp-before.Timestamp)/1000):
              -- the divisor is Go int64 division, truncating
              F.divByInt (F.sub value before.Value)
                (Int.tdiv (timestamp - before.Timestamp) 1000)
            else
              F.sub value before.Value
          (true, normalizedValue, cacheInsert cache cacheKey ⟨timestamp, value⟩)
    | none =>
        (false, value, cacheInsert cache cacheKey ⟨timestamp, value⟩)
  else
    (true, value, cache)

/-- proxy.go lines 142-213: one iteration of the loop over value-sources, at
index `i`.  Result: `none` for a runtime panic, otherwise the cache after the
iteration and the series appended for this value-source, if any. -/
def processValueSource (normalize : Bool) (types : Types) (cache : Cache)
    (packet : Packet) (i : ℕ) : Option (Cache × Option Series) :=
  match packet.values.get? i with
  | none => none
  | some (value, dataType) =>
      -- pass the unknowns
      if types packet.«Type» = none ∧ packet.TypeInstance = "" then
        some (cache, none)
      else
        match typeNameOf types packet i with
        | none => none
        | some typeName =>
            let hostName := hostNameOf packet
            let cacheKey := cacheKeyOf packet typeName
            let name := seriesNameOf packet typeName
            let timestamp := timestampOf packet
            let r := normalizeStep normalize cache cacheKey timestamp value dataType
            if r.1 then
              some (r.2.2, some ⟨name, ["time", "value", "host"],
                [(timestamp, r.2.1, hostName)]⟩)
            else
              some (r.2.2, none)

/-- The loop of `processPacket` from index `i`, running `fuel` more
iterations (called with `fuel = packet.values.length - i`). -/
def processLoop (normalize : Bool) (types : Types) (packet : Packet) :
    ℕ → ℕ → Cache → List Series → Option (Cache × List Series)
  | _, 0, cache, acc => some (cache, acc)
  | i, fuel + 1, cache, acc =>
      match processValueSource normalize types cache packet i with
      | none => none
      | some (cache', out) =>
          processLoop normalize types packet (i + 1) fuel cache' (acc ++ out.toList)

/-- proxy.go lines 135-215: `processPacket`, threading the global
`beforeCache` explicitly.  `none` models a runtime panic. -/
def processPacket (normalize : Bool) (types : Types) (cache : Cache)
    (packet : Packet) : Option (Cache × List Series) :=
  processLoop normalize types packet 0 packet.values.length cache []

/-- proxy.go line 16: `influxWriteInterval = time.Second`, in nanoseconds. -/
def influxWriteInterval : ℤ := 1000000000

/-- proxy.go line 17: `influxWriteLimit = 50`. -/
def influxWriteLimit : ℕ := 50

/-- State of the ingestion loop of `main`: the time of the last reset of
`timer` (nanoseconds) and the current `seriesGroup`. -/
structure LoopState where
  timer : ℤ
  seriesGroup : List Series
deriving DecidableEq, Repr

/-- proxy.go lines 111-123: one iteration of the ingestion loop, after the
new series of the current packet have been appended.  `now` is the value of
`time.Now()` at the check (so `time.Since(timer) = now - st.timer`).  Returns
the next state and the group handed to `go backendWriter(...)`, if any. -/
def mainStep (now : ℤ) (st : LoopState) (newSeries : List Series) :
    LoopState × Option (List Series) :=
  let seriesGroup := st.seriesGroup ++ newSeries
  if now - st.timer < influxWriteInterval ∧ seriesGroup.length < influxWriteLimit then
    (⟨st.timer, seriesGroup⟩, none)
  else
    if seriesGroup.length > 0 then
      (⟨now, []⟩, some seriesGroup)
    else
      (⟨now, seriesGroup⟩, none)

/-! Concrete fixtures used by the closed theorems below. -/

/-- A small Type Catalog: `cpu` has two data sources, `load` has one. -/
def types0 : Types := fun s =>
  if s = "cpu" then some ["user", "system"]
  else if s = "load" then some ["value"] else none

/-- The empty cache (`beforeCache` right after `init`). -/
def cache0 : Cache := fun _ => none

/-- A packet with one DERIVE value-source, hostname containing a dot,
`packet.Time().UnixNano() = 2000000000` (so `timestamp = 2000` ms). -/
def packetD : Packet := ⟨"h.a", "cpu", "", "cpu", "", [(F.finite 5, DataType.derive)], 2000000000⟩

/-- A packet with one COUNTER value-source at `timestamp = 1500` ms. -/
def packetC : Packet := ⟨"h", "cpu", "", "cpu", "", [(F.finite 3, DataType.counter)], 1500000000⟩

/-- A cache holding a prior observation `(t = 0, value = 0)` for the series
of `packetC`. -/
def cacheC : Cache := fun k =>
  if k = "h.cpu.cpu-user" then some ⟨0, F.finite 0⟩ else none

/-- A packet with one COUNTER value-source at `timestamp = 1000` ms. -/
def packetE : Packet := ⟨"h", "cpu", "", "cpu", "", [(F.finite 7, DataType.counter)], 1000000000⟩

/-- A cache holding a prior observation with the same timestamp (1000 ms) as
`packetE`. -/
def cacheE : Cache := fun k =>
  if k = "h.cpu.cpu-user" then some ⟨1000, F.finite 3⟩ else none

/-- A packet with one GAUGE value-source and a dotted hostname. -/
def packetG : Packet :=
  ⟨"my.host.name", "load", "", "load", "", [(F.finite (85 / 2), DataType.gauge)], 1000000000⟩

/-- A packet whose type is not in `types0` and whose type-instance is empty. -/
def packetU : Packet := ⟨"h", "mem", "", "weird", "", [(F.finite 1, DataType.gauge)], 0⟩

/-- A packet carrying three value-sources while its type `cpu` declares only
two data-source names: index 2 makes `t[i]` panic. -/
def packetBad : Packet :=
  ⟨"h", "cpu", "", "cpu", "",
    [(F.finite 1, DataType.gauge), (F.finite 2, DataType.gauge), (F.finite 3, DataType.gauge)], 0⟩

/-! Helper lemmas shared by the claim theorems. -/

theorem normalizeStep_off (normalize : Bool) (cache : Cache) (key : String)
    (ts : ℤ) (v : F) (dt : DataType) (h : normPathCond normalize dt = false) :
    normalizeStep normalize cache key ts v dt = (true, v, cache) := by
  simp [normalizeStep, h]

theorem normalizeStep_noEntry (normalize : Bool) (cache : Cache) (key : String)
    (ts : ℤ) (v : F) (dt : DataType) (h : normPathCond normalize dt = true)
    (hc : cache key = none) :
    normalizeStep normalize cache key ts v dt = (false, v, cacheInsert cache key ⟨ts, v⟩) := by
  simp [normalizeStep, h, hc]

theorem normalizeStep_nanEntry (normalize : Bool) (cache : Cache) (key : String)
    (ts : ℤ) (v : F) (dt : DataType) (before : CacheEntry)
    (h : normPathCond normalize dt = true) (hc : cache key = some before)
    (hnan : before.Value.isNaN = true) :
    normalizeStep normalize cache key ts v dt = (false, v, cacheInsert cache key ⟨ts, v⟩) := by
  simp [normalizeStep, h, hc, hnan]

theorem normalizeStep_valid (normalize : Bool) (cache : Cache) (key : String)
    (ts : ℤ) (v : F) (dt : DataType) (before : CacheEntry)
    (h : normPathCond normalize dt = true) (hc : cache key = some before)
    (hnan : before.Value.isNaN = false) :
    normalizeStep normalize cache key ts v dt =
      (true,
        (if ts - before.Timestamp > 0 then
          F.divByInt (F.sub v before.Value) (Int.tdiv (ts - before.Timestamp) 1000)
        else F.sub v before.Value),
        cacheInsert cache key ⟨ts, v⟩) := by
  simp [normalizeStep, h, hc, hnan]

theorem normalizeStep_cache_on (normalize : Bool) (cache : Cache) (key : String)
    (ts : ℤ) (v : F) (dt : DataType) (h : normPathCond normalize dt = true) :
    (normalizeStep normalize cache key ts v dt).2.2 = cacheInsert cache key ⟨ts, v⟩ := by
  rcases hc : cache key with _ | before
  · simp [normalizeStep, h, hc]
  · rcases hnan : before.Value.isNaN with _ | _ <;> simp [normalizeStep, h, hc, hnan]

/-- Shape of one value-source iteration once the unknown-type guard has
passed and the type name resolved: the normalization block alone decides
readiness, emitted value and cache. -/
theorem processValueSource_shape (normalize : Bool) (types : Types) (cache : Cache)
    (packet : Packet) (i : ℕ) (value : F) (dataType : DataType) (typeName : String)
    (hv : packet.values.get? i = some (value, dataType))
    (hguard : ¬(types packet.«Type» = none ∧ packet.TypeInstance = ""))
    (ht : typeNameOf types packet i = some typeName) :
    processValueSource normalize types cache packet i =
      (if (normalizeStep normalize cache (cacheKeyOf packet typeName) (timestampOf packet) value dataType).1 then
        some ((normalizeStep normalize cache (cacheKeyOf packet typeName) (timestampOf packet) value dataType).2.2,
          some ⟨seriesNameOf packet typeName, ["time", "value", "host"],
            [(timestampOf packet,
              (normalizeStep normalize cache (cacheKeyOf packet typeName) (timestampOf packet) value dataType).2.1,
              hostNameOf packet)]⟩)
      else
        some ((normalizeStep normalize cache (cacheKeyOf packet typeName) (timestampOf packet) value dataType).2.2, none)) := by
  simp only [processValueSource, hv, ht, if_neg hguard]

theorem processValueSource_none_of_get? (normalize : Bool) (types : Types)
    (cache : Cache) (packet : Packet) (i : ℕ)
    (h : packet.values.get? i = none) :
    processValueSource normalize types cache packet i = none := by
  simp only [processValueSource, h]

theorem processValueSource_skip (normalize : Bool) (types : Types) (cache : Cache)
    (packet : Packet) (i : ℕ) (value : F) (dataType : DataType)
    (hv : packet.values.get? i = some (value, dataType))
    (hunknown : types packet.«Type» = none) (hinst : packet.TypeInstance = "") :
    processValueSource normalize types cache packet i = some (cache, none) := by
  simp only [processValueSource, hv]
  rw [if_pos ⟨hunknown, hinst⟩]

theorem processValueSource_panic (normalize : Bool) (types : Types) (cache : Cache)
    (packet : Packet) (i : ℕ) (value : F) (dataType : DataType)
    (hv : packet.values.get? i = some (value, dataType))
    (hguard : ¬(types packet.«Type» = none ∧ packet.TypeInstance = ""))
    (ht : typeNameOf types packet i = none) :
    processValueSource normalize types cache packet i = none := by
  simp only [processValueSource, hv, ht]
  rw [if_neg hguard]

/-- C1: the claim says the normalization path is taken exactly when
normalization is enabled AND the kind is COUNTER or DERIVE, and that with
normalization disabled the raw value is emitted and the cache untouched.
The code disagrees: Go parses the guard on proxy.go line 181 as
`(*normalize && dataType == TypeCounter) || (dataType == TypeDerive)`, so a
DERIVE value-source is normalized even with `-normalize=false`, contradicting
the flag's own documentation ("true if you need to normalize data for COUNTER
and DERIVE types").  At the failing input (normalization disabled, one DERIVE
value-source, empty cache) the code emits no Point at all and writes the
cache, instead of emitting the raw value 5 and leaving the cache alone. -/
theorem C1_derive_normalized_despite_toggle_off :
    processValueSource false types0 cache0 packetD 0 =
      some (cacheInsert cache0 "h_a.cpu.cpu-user" ⟨2000, F.finite 5⟩, none) := by
  rfl

/-- C2 counterexample: with a prior entry `(t = 0, v = 0)` and a current
COUNTER observation `(t = 1500 ms, v = 3)`, the code emits value
`(3 - 0) / float64(1500/1000) = 3/1 = 3`, not the exact per-second rate
`(3 - 0) / 1.5 = 2` the claim promises for every positive Δt. -/
theorem C2_counterexample :
    processValueSource true types0 cacheC packetC 0 =
      some (cacheInsert cacheC "h.cpu.cpu-user" ⟨1500, F.finite 3⟩,
        some ⟨"cpu.cpu-user", ["time", "value", "host"], [(1500, F.finite 3, "h")]⟩) ∧
    F.finite 3 ≠ F.finite ((3 - 0) / ((1500 : ℚ) / 1000)) := by
  constructor
  · rw [processValueSource_shape true types0 cacheC packetC 0 (F.finite 3) DataType.counter
        "cpu-user" rfl (by decide) rfl,
      normalizeStep_valid true cacheC (cacheKeyOf packetC "cpu-user") (timestampOf packetC)
        (F.finite 3) DataType.counter ⟨0, F.finite 0⟩ rfl rfl rfl]
    norm_num [show timestampOf packetC = 1500 from rfl,
      show cacheKeyOf packetC "cpu-user" = "h.cpu.cpu-user" from rfl,
      show seriesNameOf packetC "cpu-user" = "cpu.cpu-user" from rfl,
      show hostNameOf packetC = "h" from rfl,
      show Int.tdiv 1500 1000 = 1 from rfl, F.sub, F.divByInt]
  · simp only [ne_eq, F.finite.injEq]
    norm_num

/-- C2 (amended): for a COUNTER/DERIVE observation with a valid prior cache
entry and Δt > 0, the emitted value is `(currentRaw - priorRaw)` divided by
`float64(Δt / 1000)` where `Δt / 1000` is Go's truncating int64 division of
the millisecond delta — the exact per-second rate only when Δt is a whole
multiple of 1000 ms, and a division by zero when 0 < Δt < 1000. -/
theorem C2_rate_uses_truncated_integer_seconds (normalize : Bool) (types : Types)
    (cache : Cache) (packet : Packet) (i : ℕ) (value : F) (dataType : DataType)
    (typeName : String) (before : CacheEntry)
    (hv : packet.values.get? i = some (value, dataType))
    (hguard : ¬(types packet.«Type» = none ∧ packet.TypeInstance = ""))
    (ht : typeNameOf types packet i = some typeName)
    (hnorm : normalize = true)
    (hdt : dataType = DataType.counter ∨ dataType = DataType.derive)
    (hb : cache (cacheKeyOf packet typeName) = some before)
    (hnan : before.Value.isNaN = false)
    (hpos : 0 < timestampOf packet - before.Timestamp) :
    processValueSource normalize types cache packet i =
      some (cacheInsert cache (cacheKeyOf packet typeName) ⟨timestampOf packet, value⟩,
        some ⟨seriesNameOf packet typeName, ["time", "value", "host"],
          [(timestampOf packet,
            F.divByInt (F.sub value before.Value)
              (Int.tdiv (timestampOf packet - before.Timestamp) 1000),
            hostNameOf packet)]⟩) := by
  have hcond : normPathCond normalize dataType = true := by
    rcases hdt with h | h <;> simp [normPathCond, hnorm, h]
  rw [processValueSource_shape normalize types cache packet i value dataType typeName hv hguard ht,
    normalizeStep_valid normalize cache _ _ _ _ before hcond hb hnan, if_pos hpos]
  rfl

/-- C2 witness: the amended statement evaluated on the counterexample input:
Δt = 1500 ms, so the divisor is `float64(1500/1000) = 1` and the emitted
value is 3. -/
theorem C2_rate_witness :
    processValueSource true types0 cacheC packetC 0 =
      some (cacheInsert cacheC "h.cpu.cpu-user" ⟨1500, F.finite 3⟩,
        some ⟨"cpu.cpu-user", ["time", "value", "host"], [(1500, F.finite 3, "h")]⟩) := by
  have h := C2_rate_uses_truncated_integer_seconds true types0 cacheC packetC 0 (F.finite 3)
    DataType.counter "cpu-user" ⟨0, F.finite 0⟩ rfl (by decide) rfl rfl (Or.inl rfl)
    rfl rfl (by decide)
  rw [h]
  norm_num [show timestampOf packetC = 1500 from rfl,
    show cacheKeyOf packetC "cpu-user" = "h.cpu.cpu-user" from rfl,
    show seriesNameOf packetC "cpu-user" = "cpu.cpu-user" from rfl,
    show hostNameOf packetC = "h" from rfl,
    show Int.tdiv 1500 1000 = 1 from rfl, F.sub, F.divByInt]

/-- C3: on the normalization path (normalization enabled, kind COUNTER or
DERIVE), a first observation — no cache entry for the series key, or a prior
entry whose value is NaN — emits no Point, and the current raw value and
timestamp become the new cache entry. -/
theorem C3_first_observation_no_point (normalize : Bool) (types : Types) (cache : Cache)
    (packet : Packet) (i : ℕ) (value : F) (dataType : DataType) (typeName : String)
    (hv : packet.values.get? i = some (value, dataType))
    (hguard : ¬(types packet.«Type» = none ∧ packet.TypeInstance = ""))
    (ht : typeNameOf types packet i = some typeName)
    (hnorm : normalize = true)
    (hdt : dataType = DataType.counter ∨ dataType = DataType.derive)
    (hfirst : cache (cacheKeyOf packet typeName) = none ∨
      ∃ before, cache (cacheKeyOf packet typeName) = some before ∧ before.Value.isNaN = true) :
    processValueSource normalize types cache packet i =
      some (cacheInsert cache (cacheKeyOf packet typeName) ⟨timestampOf packet, value⟩, none) := by
  have hcond : normPathCond normalize dataType = true := by
    rcases hdt with h | h <;> simp [normPathCond, hnorm, h]
  rw [processValueSource_shape normalize types cache packet i value dataType typeName hv hguard ht]
  rcases hfirst with hc | ⟨before, hc, hnan⟩
  · rw [normalizeStep_noEntry normalize cache _ _ _ _ hcond hc]; simp
  · rw [normalizeStep_nanEntry normalize cache _ _ _ _ before hcond hc hnan]; simp

/-- C3 witness: the first DERIVE observation on an empty cache emits nothing
and seeds the cache with `(2000, 5)`. -/
theorem C3_witness :
    processValueSource true types0 cache0 packetD 0 =
      some (cacheInsert cache0 "h_a.cpu.cpu-user" ⟨2000, F.finite 5⟩, none) :=
  C3_first_observation_no_point true types0 cache0 packetD 0 (F.finite 5)
    DataType.derive "cpu-user" rfl (by decide) rfl rfl (Or.inr rfl) (Or.inl rfl)

theorem cacheInsert_spec (cache : Cache) (key : String) (e : CacheEntry) :
    cacheInsert cache key e key = some e ∧
    (∀ k, k ≠ key → cacheInsert cache key e k = cache k) ∧
    (∀ k, (cache k).isSome = true → (cacheInsert cache key e k).isSome = true) := by
  refine ⟨by simp [cacheInsert], fun k hk => by simp [cacheInsert, hk], fun k hk => ?_⟩
  by_cases hkk : k = key
  · simp [cacheInsert, hkk]
  · simpa [cacheInsert, hkk] using hk

/-- C4: after each sample, the loop flushes exactly when the elapsed time
since the last reset reaches `influxWriteInterval` (1 s) or the batch size
reaches `influxWriteLimit` (50); a hand-off (the argument of the spawned
`go backendWriter(...)`) occurs exactly on a flush with a non-empty batch,
in which case the whole batch is handed off and replaced by a fresh empty
one; and the timer is reset on every flush trigger whether or not a
hand-off occurred.  Otherwise state is just the appended batch. -/
theorem C4_flush_trigger_and_reset (now : ℤ) (st : LoopState) (newSeries : List Series) :
    ((mainStep now st newSeries).2 ≠ none ↔
      ((influxWriteInterval ≤ now - st.timer ∨
          influxWriteLimit ≤ (st.seriesGroup ++ newSeries).length) ∧
        st.seriesGroup ++ newSeries ≠ [])) ∧
    ((influxWriteInterval ≤ now - st.timer ∨
        influxWriteLimit ≤ (st.seriesGroup ++ newSeries).length) →
      (mainStep now st newSeries).1.timer = now ∧
        (mainStep now st newSeries).1.seriesGroup = []) ∧
    (¬(influxWriteInterval ≤ now - st.timer ∨
        influxWriteLimit ≤ (st.seriesGroup ++ newSeries).length) →
      mainStep now st newSeries = (⟨st.timer, st.seriesGroup ++ newSeries⟩, none)) ∧
    ((mainStep now st newSeries).2 ≠ none →
      (mainStep now st newSeries).2 = some (st.seriesGroup ++ newSeries)) := by
  by_cases hcond : now - st.timer < influxWriteInterval ∧
      (st.seriesGroup ++ newSeries).length < influxWriteLimit
  · have hno : ¬(influxWriteInterval ≤ now - st.timer ∨
        influxWriteLimit ≤ (st.seriesGroup ++ newSeries).length) := by
      push_neg
      exact hcond
    have hm : mainStep now st newSeries =
        (⟨st.timer, st.seriesGroup ++ newSeries⟩, none) := by
      simp only [mainStep]
      rw [if_pos hcond]
    rw [hm]
    exact ⟨⟨fun h => absurd rfl h, fun ⟨hf, _⟩ => absurd hf hno⟩,
      fun hf => absurd hf hno, fun _ => rfl, fun h => absurd rfl h⟩
  · have hyes : influxWriteInterval ≤ now - st.timer ∨
        influxWriteLimit ≤ (st.seriesGroup ++ newSeries).length := by
      rcases not_and_or.mp hcond with h | h
      · exact Or.inl (not_lt.mp h)
      · exact Or.inr (not_lt.mp h)
    by_cases hlen : (st.seriesGroup ++ newSeries).length > 0
    · have hne : st.seriesGroup ++ newSeries ≠ [] := by
        intro h
        rw [h] at hlen
        simp at hlen
      have hm : mainStep now st newSeries =
          (⟨now, []⟩, some (st.seriesGroup ++ newSeries)) := by
        simp only [mainStep]
        rw [if_neg hcond, if_pos hlen]
      rw [hm]
      exact ⟨⟨fun _ => ⟨hyes, hne⟩, fun _ h => Option.noConfusion h⟩,
        fun _ => ⟨rfl, rfl⟩, fun hno2 => absurd hyes hno2, fun _ => rfl⟩
    · have hnil : st.seriesGroup ++ newSeries = [] :=
        List.eq_nil_of_length_eq_zero (by omega)
      have hm : mainStep now st newSeries =
          (⟨now, st.seriesGroup ++ newSeries⟩, none) := by
        simp only [mainStep]
        rw [if_neg hcond, if_neg hlen]
      rw [hm]
      exact ⟨⟨fun h => absurd rfl h, fun ⟨_, hne2⟩ => absurd hnil hne2⟩,
        fun _ => ⟨rfl, hnil⟩, fun hno2 => absurd hyes hno2, fun h => absurd rfl h⟩

/-- C5: a COUNTER/DERIVE observation (normalization enabled) with a valid
prior cache entry and non-positive elapsed time `Δt ≤ 0` emits the raw
difference `currentRaw - priorRaw`, with no division. -/
theorem C5_nonpositive_dt_raw_difference (normalize : Bool) (types : Types)
    (cache : Cache) (packet : Packet) (i : ℕ) (value : F) (dataType : DataType)
    (typeName : String) (before : CacheEntry)
    (hv : packet.values.get? i = some (value, dataType))
    (hguard : ¬(types packet.«Type» = none ∧ packet.TypeInstance = ""))
    (ht : typeNameOf types packet i = some typeName)
    (hnorm : normalize = true)
    (hdt : dataType = DataType.counter ∨ dataType = DataType.derive)
    (hb : cache (cacheKeyOf packet typeName) = some before)
    (hnan : before.Value.isNaN = false)
    (hnonpos : timestampOf packet - before.Timestamp ≤ 0) :
    processValueSource normalize types cache packet i =
      some (cacheInsert cache (cacheKeyOf packet typeName) ⟨timestampOf packet, value⟩,
        some ⟨seriesNameOf packet typeName, ["time", "value", "host"],
          [(timestampOf packet, F.sub value before.Value, hostNameOf packet)]⟩) := by
  have hcond : normPathCond normalize dataType = true := by
    rcases hdt with h | h <;> simp [normPathCond, hnorm, h]
  rw [processValueSource_shape normalize types cache packet i value dataType typeName hv hguard ht,
    normalizeStep_valid normalize cache _ _ _ _ before hcond hb hnan,
    if_neg (not_lt.mpr hnonpos)]
  rfl

/-- C5 witness: a second COUNTER observation with the same timestamp
(Δt = 0) emits the raw difference `7 - 3 = 4`. -/
theorem C5_witness :
    processValueSource true types0 cacheE packetE 0 =
      some (cacheInsert cacheE "h.cpu.cpu-user" ⟨1000, F.finite 7⟩,
        some ⟨"cpu.cpu-user", ["time", "value", "host"], [(1000, F.finite 4, "h")]⟩) := by
  have h := C5_nonpositive_dt_raw_difference true types0 cacheE packetE 0 (F.finite 7)
    DataType.counter "cpu-user" ⟨1000, F.finite 3⟩ rfl (by decide) rfl rfl (Or.inl rfl)
    rfl rfl (by decide)
  rw [h]
  norm_num [show timestampOf packetE = 1000 from rfl,
    show cacheKeyOf packetE "cpu-user" = "h.cpu.cpu-user" from rfl,
    show seriesNameOf packetE "cpu-user" = "cpu.cpu-user" from rfl,
    show hostNameOf packetE = "h" from rfl, F.sub]

/-- C6: a value-source whose type name is absent from the Type Catalog and
whose type-instance is empty is discarded: no Point, and the cache is
returned untouched (the same map). -/
theorem C6_unknown_type_discarded (normalize : Bool) (types : Types) (cache : Cache)
    (packet : Packet) (i : ℕ) (value : F) (dataType : DataType)
    (hv : packet.values.get? i = some (value, dataType))
    (hunknown : types packet.«Type» = none) (hinst : packet.TypeInstance = "") :
    processValueSource normalize types cache packet i = some (cache, none) := by
  simp only [processValueSource, hv]
  rw [if_pos ⟨hunknown, hinst⟩]

/-- C6 witness: a GAUGE value-source with unknown type `weird` and empty
type-instance produces no Point and leaves the cache as it was. -/
theorem C6_witness :
    processValueSource true types0 cache0 packetU 0 = some (cache0, none) :=
  C6_unknown_type_discarded true types0 cache0 packetU 0 (F.finite 1) DataType.gauge
    rfl rfl rfl

/-- C7: whenever the normalization path is taken (the guard of proxy.go
line 181 holds, which covers every COUNTER/DERIVE observation with
normalization enabled), the cache entry for the series key afterwards is
exactly the current `(timestamp, raw value)`, every other key is unchanged,
and no key is ever deleted. -/
theorem C7_cache_overwritten_never_deleted (normalize : Bool) (types : Types)
    (cache : Cache) (packet : Packet) (i : ℕ) (value : F) (dataType : DataType)
    (typeName : String) (c' : Cache) (out : Option Series)
    (hv : packet.values.get? i = some (value, dataType))
    (hguard : ¬(types packet.«Type» = none ∧ packet.TypeInstance = ""))
    (ht : typeNameOf types packet i = some typeName)
    (hpath : normPathCond normalize dataType = true)
    (hrun : processValueSource normalize types cache packet i = some (c', out)) :
    c' (cacheKeyOf packet typeName) = some ⟨timestampOf packet, value⟩ ∧
    (∀ k, k ≠ cacheKeyOf packet typeName → c' k = cache k) ∧
    (∀ k, (cache k).isSome = true → (c' k).isSome = true) := by
  rw [processValueSource_shape normalize types cache packet i value dataType typeName
    hv hguard ht] at hrun
  have hcc := normalizeStep_cache_on normalize cache (cacheKeyOf packet typeName)
    (timestampOf packet) value dataType hpath
  have hc' : c' = cacheInsert cache (cacheKeyOf packet typeName)
      ⟨timestampOf packet, value⟩ := by
    split at hrun <;>
      (rw [hcc] at hrun; injection hrun with h1; injection h1 with h2 h3; exact h2.symm)
  rw [hc']
  exact cacheInsert_spec cache (cacheKeyOf packet typeName) ⟨timestampOf packet, value⟩

/-- C7 witness: after the first DERIVE observation of `packetD`, the cache
holds `(2000, 5)` at the series key, all other keys are unchanged, and
nothing was deleted. -/
theorem C7_witness :
    (cacheInsert cache0 "h_a.cpu.cpu-user" ⟨2000, F.finite 5⟩) "h_a.cpu.cpu-user" =
        some ⟨2000, F.finite 5⟩ ∧
    (∀ k, k ≠ "h_a.cpu.cpu-user" →
      cacheInsert cache0 "h_a.cpu.cpu-user" ⟨2000, F.finite 5⟩ k = cache0 k) ∧
    (∀ k, (cache0 k).isSome = true →
      ((cacheInsert cache0 "h_a.cpu.cpu-user" ⟨2000, F.finite 5⟩) k).isSome = true) :=
  C7_cache_overwritten_never_deleted true types0 cache0 packetD 0 (F.finite 5)
    DataType.derive "cpu-user" (cacheInsert cache0 "h_a.cpu.cpu-user" ⟨2000, F.finite 5⟩)
    none rfl (by decide) rfl rfl rfl

/-- C8: every emitted Point's series name is
`plugin(+"-"+pluginInstance when present) ++ "." ++ type ++ "-" ++ label`,
where the label is the sample's explicit type-instance when non-empty, and
otherwise the i-th declared data-source name of the resolved type. -/
theorem C8_series_name_format (normalize : Bool) (types : Types) (cache : Cache)
    (packet : Packet) (i : ℕ) (c' : Cache) (s : Series)
    (hrun : processValueSource normalize types cache packet i = some (c', some s)) :
    (packet.TypeInstance ≠ "" →
      s.Name = (if packet.PluginInstance ≠ "" then
          packet.Plugin ++ "-" ++ packet.PluginInstance else packet.Plugin) ++ "." ++
        packet.«Type» ++ "-" ++ packet.TypeInstance) ∧
    (∀ t lbl, packet.TypeInstance = "" → types packet.«Type» = some t →
      t.get? i = some lbl →
      s.Name = (if packet.PluginInstance ≠ "" then
          packet.Plugin ++ "-" ++ packet.PluginInstance else packet.Plugin) ++ "." ++
        packet.«Type» ++ "-" ++ lbl) := by
  rcases hget : packet.values.get? i with _ | ⟨value, dataType⟩
  · rw [processValueSource_none_of_get? normalize types cache packet i hget] at hrun
    exact Option.noConfusion hrun
  · by_cases hguard : types packet.«Type» = none ∧ packet.TypeInstance = ""
    · rw [processValueSource_skip normalize types cache packet i value dataType hget
        hguard.1 hguard.2] at hrun
      injection hrun with h1
      injection h1 with h2 h3
      exact Option.noConfusion h3
    · rcases htn : typeNameOf types packet i with _ | typeName
      · rw [processValueSource_panic normalize types cache packet i value dataType hget
          hguard htn] at hrun
        exact Option.noConfusion hrun
      · rw [processValueSource_shape normalize types cache packet i value dataType typeName
          hget hguard htn] at hrun
        have hs : s.Name = seriesNameOf packet typeName := by
          split at hrun
          · injection hrun with h1
            injection h1 with h2 h3
            injection h3 with h4
            rw [← h4]
          · injection hrun with h1
            injection h1 with h2 h3
            exact Option.noConfusion h3
        constructor
        · intro hTI
          have htn2 : typeName = packet.«Type» ++ "-" ++ packet.TypeInstance := by
            rw [typeNameOf, if_pos hTI] at htn
            exact (Option.some.inj htn).symm
          rw [hs, htn2, seriesNameOf, pluginNameOf]
          simp [String.append_assoc]
        · intro t lbl hTI htypes hlbl
          have htn2 : typeName = packet.«Type» ++ "-" ++ lbl := by
            rw [typeNameOf, if_neg (by simp [hTI]), htypes] at htn
            simp only [hlbl, Option.map_some', Option.some.injEq] at htn
            exact htn.symm
          rw [hs, htn2, seriesNameOf, pluginNameOf]
          simp [String.append_assoc]

/-- C8 witness: the GAUGE sample `packetG` (type `load`, no type-instance,
no plugin-instance) yields the series name `load.load-value`, the label
coming from the declared data-source name `value`. -/
theorem C8_witness :
    (packetG.TypeInstance ≠ "" →
      (Series.mk "load.load-value" ["time", "value", "host"]
          [(1000, F.finite (85 / 2), "my_host_name")]).Name =
        (if packetG.PluginInstance ≠ "" then
            packetG.Plugin ++ "-" ++ packetG.PluginInstance else packetG.Plugin) ++ "." ++
          packetG.«Type» ++ "-" ++ packetG.TypeInstance) ∧
    (∀ t lbl, packetG.TypeInstance = "" → types0 packetG.«Type» = some t →
      t.get? 0 = some lbl →
      (Series.mk "load.load-value" ["time", "value", "host"]
          [(1000, F.finite (85 / 2), "my_host_name")]).Name =
        (if packetG.PluginInstance ≠ "" then
            packetG.Plugin ++ "-" ++ packetG.PluginInstance else packetG.Plugin) ++ "." ++
          packetG.«Type» ++ "-" ++ lbl) :=
  C8_series_name_format true types0 cache0 packetG 0 cache0
    ⟨"load.load-value", ["time", "value", "host"],
      [(1000, F.finite (85 / 2), "my_host_name")]⟩ rfl

theorem processValueSource_isSome (normalize : Bool) (types : Types) (cache : Cache)
    (packet : Packet) (i : ℕ) (hi : i < packet.values.length)
    (hpre : ∀ t, types packet.«Type» = some t → packet.TypeInstance = "" →
      packet.values.length ≤ t.length) :
    (processValueSource normalize types cache packet i).isSome = true := by
  obtain ⟨⟨value, dataType⟩, hv⟩ : ∃ p, packet.values.get? i = some p := by
    rw [List.get?_eq_get hi]
    exact ⟨_, rfl⟩
  by_cases hguard : types packet.«Type» = none ∧ packet.TypeInstance = ""
  · rw [processValueSource_skip normalize types cache packet i value dataType hv
      hguard.1 hguard.2]
    rfl
  · have htn : ∃ tn, typeNameOf types packet i = some tn := by
      by_cases hTI : packet.TypeInstance = ""
      · rcases hty : types packet.«Type» with _ | t
        · exact absurd ⟨hty, hTI⟩ hguard
        · have hlen : i < t.length := lt_of_lt_of_le hi (hpre t hty hTI)
          refine ⟨packet.«Type» ++ "-" ++ t.get ⟨i, hlen⟩, ?_⟩
          simp only [typeNameOf, hTI, hty]
          rw [if_neg (by simp)]
          rw [List.get?_eq_get hlen]
          rfl
      · exact ⟨packet.«Type» ++ "-" ++ packet.TypeInstance, by simp [typeNameOf, hTI]⟩
    rcases htn with ⟨tn, htn⟩
    rw [processValueSource_shape normalize types cache packet i value dataType tn hv
      hguard htn]
    split <;> rfl

theorem processLoop_isSome (normalize : Bool) (types : Types) (packet : Packet)
    (hpre : ∀ t, types packet.«Type» = some t → packet.TypeInstance = "" →
      packet.values.length ≤ t.length) :
    ∀ (fuel i : ℕ) (cache : Cache) (acc : List Series),
      i + fuel = packet.values.length →
      (processLoop normalize types packet i fuel cache acc).isSome = true := by
  intro fuel
  induction fuel with
  | zero =>
      intro i cache acc _
      rfl
  | succ n ih =>
      intro i cache acc hlen
      have hi : i < packet.values.length := by omega
      have h1 := processValueSource_isSome normalize types cache packet i hi hpre
      unfold processLoop
      rcases hr : processValueSource normalize types cache packet i with _ | ⟨cache', out⟩
      · rw [hr] at h1
        exact absurd h1 (by simp)
      · exact ih (i + 1) cache' (acc ++ out.toList) (by omega)

/-- C9: processing a whole packet is total (never reaches the runtime-panic
branch) whenever, if the type is known and the type-instance empty, the
packet carries no more value-sources than the type declares data-source
names; and without that precondition the panic branch is reachable:
`packetBad` carries three value-sources while type `cpu` declares two, so
`t[i]` at index 2 is out of range. -/
theorem C9_totality_and_index_panic :
    (∀ (normalize : Bool) (types : Types) (cache : Cache) (packet : Packet),
      (∀ t, types packet.«Type» = some t → packet.TypeInstance = "" →
        packet.values.length ≤ t.length) →
      (processPacket normalize types cache packet).isSome = true) ∧
    processPacket true types0 cache0 packetBad = none := by
  constructor
  · intro normalize types cache packet hpre
    exact processLoop_isSome normalize types packet hpre packet.values.length 0 cache []
      (by omega)
  · rfl

/-- C10: every emitted Point carries as host label the sample's hostname
with every "." replaced by "_", and any cache key the iteration writes
starts with that sanitized host followed by the "." separator — the
sanitized form, not the original hostname, reaches the backend. -/
theorem C10_sanitized_host_in_point_and_key (normalize : Bool) (types : Types)
    (cache : Cache) (packet : Packet) (i : ℕ) (c' : Cache) (s : Series)
    (hrun : processValueSource normalize types cache packet i = some (c', some s)) :
    (∃ ts v, s.Points =
      [(ts, v, String.mk (packet.Hostname.data.map fun c => if c = '.' then '_' else c))]) ∧
    (∀ k, c' k ≠ cache k →
      ∃ rest, k = String.mk (packet.Hostname.data.map fun c => if c = '.' then '_' else c)
        ++ "." ++ rest) := by
  rcases hget : packet.values.get? i with _ | ⟨value, dataType⟩
  · rw [processValueSource_none_of_get? normalize types cache packet i hget] at hrun
    exact Option.noConfusion hrun
  · by_cases hguard : types packet.«Type» = none ∧ packet.TypeInstance = ""
    · rw [processValueSource_skip normalize types cache packet i value dataType hget
        hguard.1 hguard.2] at hrun
      injection hrun with h1
      injection h1 with h2 h3
      exact Option.noConfusion h3
    · rcases htn : typeNameOf types packet i with _ | typeName
      · rw [processValueSource_panic normalize types cache packet i value dataType hget
          hguard htn] at hrun
        exact Option.noConfusion hrun
      · rw [processValueSource_shape normalize types cache packet i value dataType typeName
          hget hguard htn] at hrun
        have hkey : ∀ k,
            (normalizeStep normalize cache (cacheKeyOf packet typeName)
              (timestampOf packet) value dataType).2.2 k ≠ cache k →
            ∃ rest, k = hostNameOf packet ++ "." ++ rest := by
          intro k hk
          rcases hcnd : normPathCond normalize dataType with _ | _
          · rw [normalizeStep_off normalize cache _ _ _ _ hcnd] at hk
            exact absurd rfl hk
          · rw [normalizeStep_cache_on normalize cache _ _ _ _ hcnd] at hk
            by_cases hkk : k = cacheKeyOf packet typeName
            · refine ⟨pluginNameOf packet ++ "." ++ typeName, ?_⟩
              rw [hkk]
              simp [cacheKeyOf, String.append_assoc]
            · exact absurd (by simp [cacheInsert, hkk]) hk
        split at hrun
        · injection hrun with h1
          injection h1 with h2 h3
          injection h3 with h4
          constructor
          · refine ⟨timestampOf packet,
              (normalizeStep normalize cache (cacheKeyOf packet typeName)
                (timestampOf packet) value dataType).2.1, ?_⟩
            rw [← h4]
            rfl
          · intro k hk
            rw [← h2] at hk
            exact hkey k hk
        · injection hrun with h1
          injection h1 with h2 h3
          exact Option.noConfusion h3

/-- C10 witness: the Point emitted for `packetG` (hostname
`my.host.name`) carries the sanitized host `my_host_name`, and the cache
was untouched (GAUGE), so the key condition is vacuous. -/
theorem C10_witness :
    (∃ ts v, (Series.mk "load.load-value" ["time", "value", "host"]
        [(1000, F.finite (85 / 2), "my_host_name")]).Points =
      [(ts, v, String.mk (packetG.Hostname.data.map fun c => if c = '.' then '_' else c))]) ∧
    (∀ k, cache0 k ≠ cache0 k →
      ∃ rest, k = String.mk (packetG.Hostname.data.map fun c => if c = '.' then '_' else c)
        ++ "." ++ rest) :=
  C10_sanitized_host_in_point_and_key true types0 cache0 packetG 0 cache0
    ⟨"load.load-value", ["time", "value", "host"],
      [(1000, F.finite (85 / 2), "my_host_name")]⟩ rfl

end CollectdProxy
